import Mathlib

/-!
Verification of the proxyengine repository (`src/lib.rs`, `src/timer_wheel.rs`)
against its natural-language specification.

The Rust code is shallowly embedded: `u64` values are represented as `Nat`
together with explicit wrapping (`% 2^64`) at the operations where the Rust
code can overflow (release-mode wrapping semantics); a second, `Option`-valued
variant of the timer-wheel operations models debug-mode checked arithmetic for
the underflow analysis.
-/

namespace ProxyEngine

/-! ## `u64` arithmetic model -/

/-- The modulus of Rust's `u64` type. -/
def U64 : Nat := 2 ^ 64

/-- Wrapping (release-mode) `u64` subtraction, valid for operands `< U64`. -/
def wsub (a b : Nat) : Nat := (a + U64 - b) % U64

/-- Wrapping (release-mode) `u64` addition. -/
def wadd (a b : Nat) : Nat := (a + b) % U64

/-! ## Timer wheel (`src/timer_wheel.rs`) -/

/-- `MILLIS_TO_CYCLES` from `timer_wheel.rs`. -/
def MILLIS_TO_CYCLES : Nat := 2270000

/-- The `TimerWheel<T>` struct.  `slots: Vec<Vec<T>>` becomes a list of lists;
all `u64`/`usize` fields become `Nat` (wrapping handled at each operation). -/
structure TimerWheel (T : Type) where
  resolution_cycles : Nat
  no_slots : Nat
  last_slot : Nat
  last_advance : Nat
  start : Nat
  slots : List (List T)
  deriving Repr, DecidableEq

namespace TimerWheel

/-- `TimerWheel::new`.  `now` stands for the `rdtsc_unsafe()` reading taken at
construction time; `slot_capacity` only pre-sizes the `Vec`s and has no
semantic effect. -/
def new (T : Type) (no_slots : Nat) (resolution_cycles : Nat)
    (_slot_capacity : Nat) (now : Nat) : TimerWheel T :=
  { resolution_cycles := resolution_cycles
    no_slots := no_slots
    last_slot := no_slots - 1
    last_advance := 0
    start := wsub now resolution_cycles
    slots := List.replicate no_slots [] }

/-- `TimerWheel::get_resolution`. -/
def get_resolution (w : TimerWheel T) : Nat := w.resolution_cycles

/-- `TimerWheel::get_max_timeout_cycles`. -/
def get_max_timeout_cycles (w : TimerWheel T) : Nat :=
  (w.no_slots - 1) * w.resolution_cycles

/-- The `while slots_to_process > 0` loop of `TimerWheel::tick`, with
`slots_to_process` as the structural fuel (it is decremented exactly when an
empty slot is inspected; a return consumes the remaining value for the
`slots_to_process > 1` flag). -/
def tickLoop : Nat → TimerWheel T → (Option (List T) × Bool) × TimerWheel T
  | 0, w => ((none, false), w)
  | stp + 1, w =>
    let ls := (w.last_slot + 1) % w.no_slots
    let w1 : TimerWheel T :=
      { w with last_slot := ls, last_advance := wadd w.last_advance 1 }
    let content := w1.slots.getD ls []
    if content.length > 0 then
      ((some content, stp + 1 > 1), { w1 with slots := w1.slots.set ls [] })
    else
      tickLoop stp w1

/-- `TimerWheel::tick` (release-mode wrapping semantics).  Returns the pair the
Rust function returns — the drained slot contents (`Drain` is modelled by the
drained list, the slot being emptied in the state) and the more-work flag —
together with the updated wheel. -/
def tick (now : Nat) (w : TimerWheel T) : (Option (List T) × Bool) × TimerWheel T :=
  let dur := wsub now w.start
  let advance := dur / w.resolution_cycles
  let progress := wsub advance w.last_advance
  let slots_to_process := min progress w.no_slots
  let w1 : TimerWheel T :=
    if progress > w.no_slots then
      { w with last_slot := wsub advance slots_to_process % w.no_slots,
               last_advance := wsub advance slots_to_process }
    else w
  tickLoop slots_to_process w1

/-- `TimerWheel::schedule` (release-mode wrapping semantics).  Returns the slot
index together with the updated wheel. -/
def schedule (when : Nat) (what : T) (w : TimerWheel T) : Nat × TimerWheel T :=
  let dur := wsub when w.start
  let slot := wsub (dur / w.resolution_cycles) 1 % w.no_slots
  (slot, { w with slots := w.slots.set slot (w.slots.getD slot [] ++ [what]) })

end TimerWheel

/-! ## Checked (debug-mode) arithmetic variants, for the underflow analysis -/

/-- Checked `u64` subtraction: `None` models a debug-mode underflow panic. -/
def checkedSub (a b : Nat) : Option Nat := if b ≤ a then some (a - b) else none

/-- Checked division: `None` models the division-by-zero panic. -/
def checkedDiv (a b : Nat) : Option Nat := if b = 0 then none else some (a / b)

/-- Checked remainder: `None` models the remainder-by-zero panic
(`wrapping_rem` still panics on a zero divisor). -/
def checkedRem (a b : Nat) : Option Nat := if b = 0 then none else some (a % b)

namespace TimerWheel

/-- `TimerWheel::schedule` with debug-mode checked arithmetic: `none` exactly
when some arithmetic step of the source panics. -/
def schedule_checked (when : Nat) (what : T) (w : TimerWheel T) :
    Option (Nat × TimerWheel T) := do
  let dur ← checkedSub when w.start
  let q ← checkedDiv dur w.resolution_cycles
  let s ← checkedSub q 1
  let slot ← checkedRem s w.no_slots
  some (slot, { w with slots := w.slots.set slot (w.slots.getD slot [] ++ [what]) })

/-- `TimerWheel::tick` with debug-mode checked arithmetic on the entry
computations (`now - start`, the division, `advance - last_advance`, and the
overrun snap `advance - slots_to_process`); the drain loop itself performs no
subtraction that can underflow. -/
def tick_checked (now : Nat) (w : TimerWheel T) :
    Option ((Option (List T) × Bool) × TimerWheel T) := do
  let dur ← checkedSub now w.start
  let advance ← checkedDiv dur w.resolution_cycles
  let progress ← checkedSub advance w.last_advance
  let slots_to_process := min progress w.no_slots
  let w1 ←
    if progress > w.no_slots then do
      let la ← checkedSub advance slots_to_process
      let ls ← checkedRem la w.no_slots
      some ({ w with last_slot := ls, last_advance := la } : TimerWheel T)
    else some w
  some (tickLoop slots_to_process w1)

end TimerWheel

/-! ## Characterization of the drain loop

`firstHit slots N ls stp` is the least `j ∈ [1, stp]` such that slot
`(ls + j) % N` is non-empty, or `none`. -/

def firstHit (slots : List (List T)) (N : Nat) : Nat → Nat → Option Nat
  | _, 0 => none
  | ls, stp + 1 =>
    let ls1 := (ls + 1) % N
    if (slots.getD ls1 []).length > 0 then some 1
    else (firstHit slots N ls1 stp).map (· + 1)

/-- Successive calls of `tick` at the given sequence of times, collecting each
call's return value. -/
def runTicks : List Nat → TimerWheel T → List (Option (List T) × Bool) × TimerWheel T
  | [], w => ([], w)
  | t :: ts, w =>
    let r := TimerWheel.tick t w
    let rr := runTicks ts r.2
    (r.1 :: rr.1, rr.2)

/-! ## Control-plane types and configuration (`src/lib.rs`) -/

/-- `PipelineId` (`u16` fields become `Nat`). -/
structure PipelineId where
  core : Nat
  port_id : Nat
  rxq : Nat
  deriving Repr, DecidableEq

/-- A `SocketAddrV4`: IPv4 address (as its `u32` value) and port. -/
structure SocketAddrV4 where
  ip : Nat
  port : Nat
  deriving Repr, DecidableEq

/-- Modelled from the spec: `ConRecord` lives in the `cmanager` module, which
is not among the provided sources.  Per the spec's data model the record
carries the client four-tuple; only the client socket is needed by the
claims (the `Exit` handler sorts by `client_sock.ip()` then
`client_sock.port()`). -/
structure ConRecord where
  client_sock : SocketAddrV4
  deriving Repr, DecidableEq

/-- A `std::sync::mpsc::Sender<M>` endpoint, modelled as an opaque channel
identifier. -/
structure Sender (M : Type) where
  chan : Nat
  deriving Repr, DecidableEq

/-- A `uuid::Uuid`, modelled as its 128-bit value. -/
structure Uuid where
  val : Nat
  deriving Repr, DecidableEq

/-- `TaskType` from `lib.rs`. -/
inductive TaskType where
  | TcpGenerator
  | Pipe2Kni
  | Pipe2Pci
  | NoTaskTypes
  deriving Repr, DecidableEq

/-- `MessageTo` from `lib.rs` (control thread → data plane). -/
inductive MessageTo where
  | Hello : MessageTo
  | ConRecords : List (PipelineId × ConRecord) → MessageTo
  | Exit : MessageTo
  deriving Repr, DecidableEq

/-- `MessageFrom` from `lib.rs` (data plane → control thread). -/
inductive MessageFrom where
  | Channel : PipelineId → Sender MessageTo → MessageFrom
  | CRecord : PipelineId → ConRecord → MessageFrom
  | ClientSyn : PipelineId → ConRecord → MessageFrom
  | Established : PipelineId → ConRecord → MessageFrom
  | GenTimeStamp : PipelineId → Nat → Nat → Nat → MessageFrom
  | StartEngine : Sender MessageTo → MessageFrom
  | Task : PipelineId → Uuid → TaskType → MessageFrom
  | PrintPerformance : List Int → MessageFrom
  | Exit : MessageFrom
  deriving Repr, DecidableEq

/-- The name of a `MessageFrom` value's variant. -/
def MessageFrom.variantName : MessageFrom → String
  | .Channel _ _ => "Channel"
  | .CRecord _ _ => "CRecord"
  | .ClientSyn _ _ => "ClientSyn"
  | .Established _ _ => "Established"
  | .GenTimeStamp _ _ _ _ => "GenTimeStamp"
  | .StartEngine _ => "StartEngine"
  | .Task _ _ _ => "Task"
  | .PrintPerformance _ => "PrintPerformance"
  | .Exit => "Exit"

/-- The name of a `MessageTo` value's variant. -/
def MessageTo.variantName : MessageTo → String
  | .Hello => "Hello"
  | .ConRecords _ => "ConRecords"
  | .Exit => "Exit"

/-- The variant names of `MessageFrom`, in source order. -/
def messageFromVariants : List String :=
  ["Channel", "CRecord", "ClientSyn", "Established", "GenTimeStamp",
   "StartEngine", "Task", "PrintPerformance", "Exit"]

/-- The variant names of `MessageTo`, in source order. -/
def messageToVariants : List String := ["Hello", "ConRecords", "Exit"]

/-- The `MessageFrom` variant names the spec's interface section lists. -/
def specMessageFromVariants : List String :=
  ["Channel", "Task", "Established", "Counter", "CRecords", "GenTimeStamp",
   "TimeStamps", "StartEngine", "PrintPerformance", "FetchCounter",
   "FetchCRecords", "Exit"]

/-- The `MessageTo` variant names the spec's interface section lists. -/
def specMessageToVariants : List String :=
  ["FetchCounter", "FetchCRecords", "StartGenerator", "Counter", "CRecords",
   "Exit"]

/-- `Timeouts` from `lib.rs` (durations in milliseconds). -/
structure Timeouts where
  established : Option Nat
  deriving Repr, DecidableEq

/-- `impl Default for Timeouts`. -/
def Timeouts.default : Timeouts := { established := some 200 }

/-- `Timeouts::default_or_some`. -/
def Timeouts.default_or_some (timeouts : Option Timeouts) : Timeouts :=
  let t := Timeouts.default
  match timeouts with
  | none => t
  | some tv => if tv.established.isSome then { t with established := tv.established } else t

/-- `TargetConfig` (`Ipv4Addr` as its `u32` value, `MacAddress` as its 48-bit
value). -/
structure TargetConfig where
  id : String
  ip : Nat
  mac : Option Nat
  linux_if : Option String
  port : Nat
  deriving Repr, DecidableEq

/-- `EngineConfig`.  The source field `namespace` is a Lean keyword and is
written with guillemets. -/
structure EngineConfig where
  «namespace» : String
  mac : String
  ipnet : String
  timeouts : Option Timeouts
  port : Nat
  deriving Repr, DecidableEq

/-- `Configuration`. -/
structure Configuration where
  targets : List TargetConfig
  engine : EngineConfig
  test_size : Option Nat
  deriving Repr, DecidableEq

/-- `Config` (the top-level TOML table). -/
structure Config where
  proxyengine : Configuration
  deriving Repr, DecidableEq

/-- The failure cases of `read_config`, in source order. -/
inductive ConfigError where
  | fileRead
  | tomlParse
  | ipnetParse
  | macParse
  deriving Repr, DecidableEq

/-- The observable outcomes of the effectful steps of `read_config`, supplied
as an environment: the file read (`none` = I/O failure), the TOML parse
(`none` = parse failure), and whether `engine.ipnet` parses as an `Ipv4Net`
and `engine.mac` as a `MacAddress`. -/
structure ReadConfigEnv where
  fileContent : Option String
  parseToml : String → Option Config
  ipnetParses : String → Bool
  macParses : String → Bool

/-- `read_config`, over the environment of its effectful steps; mirrors the
source's control flow: file read, TOML parse, `ipnet.parse::<Ipv4Net>()`,
then `mac.parse::<MacAddress>()`, returning `config.proxyengine` on success. -/
def read_config (env : ReadConfigEnv) : Except ConfigError Configuration :=
  match env.fileContent with
  | none => .error .fileRead
  | some toml_str =>
    match env.parseToml toml_str with
    | none => .error .tomlParse
    | some config =>
      if env.ipnetParses config.proxyengine.engine.ipnet then
        if env.macParses config.proxyengine.engine.mac then
          .ok config.proxyengine
        else .error .macParse
      else .error .ipnetParse

/-- The comparator the `Exit` branch of `spawn_recv_thread` passes to
`sort_by`: client IP first, client port on ties. -/
def conRecordCmp (a b : PipelineId × ConRecord) : Ordering :=
  let ordering := compare a.2.client_sock.ip b.2.client_sock.ip
  if ordering = Ordering.eq then compare a.2.client_sock.port b.2.client_sock.port
  else ordering

/-- `Vec::sort_by(cmp)` — a stable ascending sort by the comparator, modelled
by insertion sort on the induced "not greater" relation. -/
def sortConRecords (l : List (PipelineId × ConRecord)) : List (PipelineId × ConRecord) :=
  List.insertionSort (fun a b => conRecordCmp a b ≠ Ordering.gt) l

/-- The externally observable effects of the `Ok(MessageFrom::Exit)` branch of
the `spawn_recv_thread` loop. -/
structure ExitOutcome where
  sentToMain : Option MessageTo
  contextStopped : Bool
  loopTerminated : Bool
  deriving Repr, DecidableEq

/-- The `Ok(MessageFrom::Exit)` branch of `spawn_recv_thread`: sort the
accumulated `con_records` with `conRecordCmp`, send them to the main reply
channel when one was registered by `StartEngine`, stop the scheduler context,
and break out of the loop. -/
def handleExit (con_records : List (PipelineId × ConRecord))
    (reply_to_main : Option (Sender MessageTo)) : ExitOutcome :=
  let sorted := sortConRecords con_records
  { sentToMain :=
      if reply_to_main.isSome then some (MessageTo.ConRecords sorted) else none
    contextStopped := true
    loopTerminated := true }

/-! ## Theorems -/

theorem wsub_eq_sub {a b : Nat} (hba : b ≤ a) (ha : a < U64) : wsub a b = a - b := by
  unfold wsub
  have h1 : a + U64 - b = U64 + (a - b) := by omega
  have h2 : a - b < U64 := by omega
  rw [h1, Nat.add_mod_left, Nat.mod_eq_of_lt h2]

theorem wadd_eq_add {a b : Nat} (h : a + b < U64) : wadd a b = a + b := by
  unfold wadd
  exact Nat.mod_eq_of_lt h

theorem firstHit_none_iff {slots : List (List T)} {N ls stp : Nat} :
    firstHit slots N ls stp = none ↔
      ∀ j, 1 ≤ j → j ≤ stp → slots.getD ((ls + j) % N) [] = [] := by
  induction stp generalizing ls with
  | zero => simp [firstHit]; omega
  | succ stp ih =>
    simp only [firstHit]
    by_cases h1 : (slots.getD ((ls + 1) % N) []).length > 0
    · simp only [if_pos h1, Option.map]
      constructor
      · intro h; cases h
      · intro h
        have := h 1 le_rfl (by omega)
        rw [this] at h1
        simp at h1
    · simp only [if_neg h1, Option.map_eq_none', ih]
      constructor
      · intro h j hj1 hjs
        rcases Nat.eq_or_lt_of_le hj1 with rfl | hj2
        · have : slots.getD ((ls + 1) % N) [] = [] := by
            cases hh : slots.getD ((ls + 1) % N) [] with
            | nil => rfl
            | cons a t => rw [hh] at h1; simp at h1
          exact this
        · have := h (j - 1) (by omega) (by omega)
          rw [Nat.mod_add_mod] at this
          have hje : (ls + 1) + (j - 1) = ls + j := by omega
          rwa [hje] at this
      · intro h j hj1 hjs
        have := h (j + 1) (by omega) (by omega)
        rw [Nat.mod_add_mod]
        have hje : (ls + 1) + j = ls + (j + 1) := by omega
        rwa [hje]

theorem firstHit_some {slots : List (List T)} {N ls stp j : Nat}
    (h : firstHit slots N ls stp = some j) :
    1 ≤ j ∧ j ≤ stp ∧ slots.getD ((ls + j) % N) [] ≠ [] ∧
      ∀ i, 1 ≤ i → i < j → slots.getD ((ls + i) % N) [] = [] := by
  induction stp generalizing ls j with
  | zero => simp [firstHit] at h
  | succ stp ih =>
    simp only [firstHit] at h
    by_cases h1 : (slots.getD ((ls + 1) % N) []).length > 0
    · rw [if_pos h1] at h
      cases h
      refine ⟨le_rfl, by omega, ?_, ?_⟩
      · intro hc; rw [hc] at h1; simp at h1
      · intro i hi1 hi2; omega
    · rw [if_neg h1] at h
      rcases Option.map_eq_some'.mp h with ⟨j', hj', rfl⟩
      obtain ⟨ha, hb, hc, hd⟩ := ih hj'
      rw [Nat.mod_add_mod] at hc
      have hje : (ls + 1) + j' = ls + (j' + 1) := by omega
      rw [hje] at hc
      refine ⟨by omega, by omega, hc, ?_⟩
      intro i hi1 hi2
      rcases Nat.eq_or_lt_of_le hi1 with rfl | hi3
      · cases hh : slots.getD ((ls + 1) % N) [] with
        | nil => rfl
        | cons a t => rw [hh] at h1; simp at h1
      · have := hd (i - 1) (by omega) (by omega)
        rw [Nat.mod_add_mod] at this
        have hie : (ls + 1) + (i - 1) = ls + i := by omega
        rwa [hie] at this

theorem tickLoop_none {T : Type} {w : TimerWheel T} {stp : Nat}
    (hN : 0 < w.no_slots) (hls : w.last_slot < w.no_slots)
    (hla : w.last_advance + stp < U64)
    (h : firstHit w.slots w.no_slots w.last_slot stp = none) :
    TimerWheel.tickLoop stp w = ((none, false),
      { w with last_slot := (w.last_slot + stp) % w.no_slots,
               last_advance := w.last_advance + stp }) := by
  induction stp generalizing w with
  | zero =>
    rw [Nat.add_zero, Nat.add_zero, Nat.mod_eq_of_lt hls]
    rfl
  | succ stp ih =>
    simp only [firstHit] at h
    by_cases h1 : (w.slots.getD ((w.last_slot + 1) % w.no_slots) []).length > 0
    · rw [if_pos h1] at h; cases h
    · rw [if_neg h1, Option.map_eq_none'] at h
      simp only [TimerWheel.tickLoop, if_neg h1]
      have hwadd : wadd w.last_advance 1 = w.last_advance + 1 :=
        wadd_eq_add (by omega)
      rw [hwadd]
      set w1 : TimerWheel T :=
        { w with last_slot := (w.last_slot + 1) % w.no_slots,
                 last_advance := w.last_advance + 1 } with hw1
      have := ih (w := w1) hN (Nat.mod_lt _ hN) (by simp [hw1]; omega) (by simpa [hw1] using h)
      rw [this]
      simp only [hw1]
      have e1 : ((w.last_slot + 1) % w.no_slots + stp) % w.no_slots
          = (w.last_slot + (stp + 1)) % w.no_slots := by
        rw [Nat.mod_add_mod]; ring_nf
      have e2 : w.last_advance + 1 + stp = w.last_advance + (stp + 1) := by omega
      rw [e1, e2]

theorem tickLoop_some {T : Type} {w : TimerWheel T} {stp j : Nat}
    (hN : 0 < w.no_slots) (hls : w.last_slot < w.no_slots)
    (hla : w.last_advance + stp < U64)
    (h : firstHit w.slots w.no_slots w.last_slot stp = some j) :
    TimerWheel.tickLoop stp w =
      ((some (w.slots.getD ((w.last_slot + j) % w.no_slots) []), decide (j < stp)),
       { w with last_slot := (w.last_slot + j) % w.no_slots,
                last_advance := w.last_advance + j,
                slots := w.slots.set ((w.last_slot + j) % w.no_slots) [] }) := by
  induction stp generalizing w j with
  | zero => simp [firstHit] at h
  | succ stp ih =>
    simp only [firstHit] at h
    by_cases h1 : (w.slots.getD ((w.last_slot + 1) % w.no_slots) []).length > 0
    · rw [if_pos h1] at h
      cases h
      simp only [TimerWheel.tickLoop, if_pos h1]
      have hwadd : wadd w.last_advance 1 = w.last_advance + 1 :=
        wadd_eq_add (by omega)
      rw [hwadd]
    · rw [if_neg h1, Option.map_eq_some'] at h
      rcases h with ⟨j', hj', rfl⟩
      simp only [TimerWheel.tickLoop, if_neg h1]
      have hwadd : wadd w.last_advance 1 = w.last_advance + 1 :=
        wadd_eq_add (by omega)
      rw [hwadd]
      set w1 : TimerWheel T :=
        { w with last_slot := (w.last_slot + 1) % w.no_slots,
                 last_advance := w.last_advance + 1 } with hw1
      have := ih (w := w1) hN (Nat.mod_lt _ hN) (by simp [hw1]; omega) (by simpa [hw1] using hj')
      rw [this]
      simp only [hw1]
      have hidx : ((w.last_slot + 1) % w.no_slots + j') % w.no_slots =
          (w.last_slot + (j' + 1)) % w.no_slots := by
        rw [Nat.mod_add_mod]; ring_nf
      rw [hidx]
      have hflag : decide (j' < stp) = decide (j' + 1 < stp + 1) := by
        simp
      rw [hflag]
      congr 2
      omega

/-- With monotone time (`start ≤ now`), a positive resolution and no wheel
overrun, `tick` reduces to the drain loop run for
`advance − last_advance` steps. -/
theorem tick_eq_tickLoop {T : Type} {w : TimerWheel T} {now : Nat}
    (hstart : w.start ≤ now) (hnow : now < U64)
    (hla : w.last_advance ≤ (now - w.start) / w.resolution_cycles)
    (hadv : (now - w.start) / w.resolution_cycles ≤ w.last_advance + w.no_slots) :
    TimerWheel.tick now w =
      TimerWheel.tickLoop ((now - w.start) / w.resolution_cycles - w.last_advance) w := by
  have hadvlt : (now - w.start) / w.resolution_cycles < U64 :=
    lt_of_le_of_lt (le_trans (Nat.div_le_self _ _) (Nat.sub_le _ _)) hnow
  have h1 : wsub now w.start = now - w.start := wsub_eq_sub hstart hnow
  have h2 : wsub ((now - w.start) / w.resolution_cycles) w.last_advance
      = (now - w.start) / w.resolution_cycles - w.last_advance := wsub_eq_sub hla hadvlt
  have hmin : min ((now - w.start) / w.resolution_cycles - w.last_advance) w.no_slots
      = (now - w.start) / w.resolution_cycles - w.last_advance := by omega
  have hno : ((now - w.start) / w.resolution_cycles - w.last_advance > w.no_slots) = False := by
    simp; omega
  simp only [TimerWheel.tick, h1, h2, hmin, hno, if_false]

/-- With monotone time and a positive resolution, `schedule` computes its slot
and its state update in plain natural arithmetic. -/
theorem schedule_eq {T : Type} {w : TimerWheel T} {d : Nat} {x : T}
    (hres : 0 < w.resolution_cycles)
    (hsd : w.start + w.resolution_cycles ≤ d) (hd : d < U64) :
    (TimerWheel.schedule d x w).1 = ((d - w.start) / w.resolution_cycles - 1) % w.no_slots ∧
    (TimerWheel.schedule d x w).2 = { w with
      slots := w.slots.set (((d - w.start) / w.resolution_cycles - 1) % w.no_slots) (w.slots.getD (((d - w.start) / w.resolution_cycles - 1) % w.no_slots) [] ++ [x]) } := by
  have hq : 1 ≤ (d - w.start) / w.resolution_cycles := by
    rw [Nat.le_div_iff_mul_le hres]; omega
  have hqlt : (d - w.start) / w.resolution_cycles < U64 :=
    lt_of_le_of_lt (le_trans (Nat.div_le_self _ _) (Nat.sub_le _ _)) hd
  have h1 : wsub d w.start = d - w.start := wsub_eq_sub (by omega) hd
  have h2 : wsub ((d - w.start) / w.resolution_cycles) 1
      = (d - w.start) / w.resolution_cycles - 1 := wsub_eq_sub hq hqlt
  constructor <;> simp only [TimerWheel.schedule, h1, h2]

theorem mod_ne_of_lt_gap {a b N : Nat} (hab : a ≤ b) (h1 : 0 < b - a) (h2 : b - a < N) :
    b % N ≠ a % N := by
  intro h
  have hmod : a ≡ b [MOD N] := h.symm
  have hdvd : N ∣ b - a := (Nat.modEq_iff_dvd' hab).mp hmod
  have := Nat.le_of_dvd h1 hdvd
  omega

/-- Core timer-wheel liveness: starting from a wheel that is caught up at time
`tprev` and holds `x` in the slot belonging to drain step `astar` (the first
pending step congruent to the deadline's bucket), any sequence of ticks that is
monotone, at most one resolution apart, and eventually reaches cycle
`start + astar·resolution`, drains `x` at its first tick at or past that cycle,
which happens strictly within one resolution of it. -/
theorem drain_first_reach {T : Type} :
    ∀ (ts : List Nat) (w : TimerWheel T) (x : T) (astar tprev : Nat),
    0 < w.resolution_cycles → 0 < w.no_slots →
    w.last_slot = (w.last_advance + (w.no_slots - 1)) % w.no_slots →
    w.start ≤ tprev →
    w.last_advance = (tprev - w.start) / w.resolution_cycles →
    w.last_advance < astar → astar ≤ w.last_advance + w.no_slots →
    x ∈ w.slots.getD ((astar + (w.no_slots - 1)) % w.no_slots) [] →
    List.Chain' (fun a b => a ≤ b ∧ b ≤ a + w.resolution_cycles) (tprev :: ts) →
    (∀ t ∈ ts, t < U64) →
    (∃ t ∈ ts, w.start + astar * w.resolution_cycles ≤ t) →
    ∃ i, i < ts.length ∧
      (∃ l, ((runTicks ts w).1.getD i (none, false)).1 = some l ∧ x ∈ l) ∧
      w.start + astar * w.resolution_cycles ≤ ts.getD i 0 ∧
      ts.getD i 0 < w.start + (astar + 1) * w.resolution_cycles := by
  intro ts
  induction ts with
  | nil =>
    intro w x astar tprev _ _ _ _ _ _ _ _ _ _ hreach
    simp at hreach
  | cons t ts ih =>
    intro w x astar tprev hres hN hls hst hcaught hlow hhigh hx hchain hsmall hreach
    obtain ⟨⟨htpt, htgap⟩, hchain'⟩ := List.chain'_cons.mp hchain
    have htU : t < U64 := hsmall t (List.mem_cons_self _ _)
    have hstt : w.start ≤ t := le_trans hst htpt
    have hadv_ge : w.last_advance ≤ (t - w.start) / w.resolution_cycles := by
      rw [hcaught]
      exact Nat.div_le_div_right (Nat.sub_le_sub_right htpt _)
    have hadv_le : (t - w.start) / w.resolution_cycles ≤ w.last_advance + 1 := by
      have h1 : t - w.start ≤ (tprev - w.start) + w.resolution_cycles := by omega
      have h2 := Nat.div_le_div_right (c := w.resolution_cycles) h1
      rw [Nat.add_div_right _ hres] at h2
      omega
    have hticke := @tick_eq_tickLoop T w t hstt htU hadv_ge (by omega)
    by_cases hcross : astar ≤ (t - w.start) / w.resolution_cycles
    · -- the first tick reaching the deadline's step: it drains x now
      have hadv : (t - w.start) / w.resolution_cycles = w.last_advance + 1 := by omega
      have hastar : astar = w.last_advance + 1 := by omega
      have hidx : (w.last_slot + 1) % w.no_slots
          = (astar + (w.no_slots - 1)) % w.no_slots := by
        rw [hls, Nat.mod_add_mod]
        congr 1
        omega
      have hxne : w.slots.getD ((w.last_slot + 1) % w.no_slots) [] ≠ [] := by
        rw [hidx]
        intro hcon
        rw [hcon] at hx
        simp at hx
      have hfh : firstHit w.slots w.no_slots w.last_slot 1 = some 1 := by
        simp only [firstHit]
        rw [if_pos]
        rcases hh : w.slots.getD ((w.last_slot + 1) % w.no_slots) [] with _ | ⟨a, l⟩
        · exact absurd hh hxne
        · simp [hh]
      have hlaU : w.last_advance + 1 < U64 := by
        have : (t - w.start) / w.resolution_cycles ≤ t := le_trans (Nat.div_le_self _ _) (Nat.sub_le _ _)
        omega
      have hloop := tickLoop_some (w := w) hN (hls ▸ Nat.mod_lt _ hN) hlaU hfh
      refine ⟨0, by simp, ⟨w.slots.getD ((w.last_slot + 1) % w.no_slots) [], ?_, ?_⟩, ?_, ?_⟩
      · simp only [runTicks, hticke, hadv]
        have hone : w.last_advance + 1 - w.last_advance = 1 := by omega
        rw [hone, hloop]
        rfl
      · rw [hidx]; exact hx
      · simp only [List.getD_cons_zero]
        have h1 : astar * w.resolution_cycles ≤ t - w.start :=
          (Nat.le_div_iff_mul_le hres).mp hcross
        omega
      · simp only [List.getD_cons_zero]
        have htp : tprev - w.start < (w.last_advance + 1) * w.resolution_cycles := by
          rw [← Nat.div_lt_iff_lt_mul hres, ← hcaught]
          omega
        have : t < w.start + (w.last_advance + 1) * w.resolution_cycles + w.resolution_cycles := by
          omega
        calc t < w.start + (w.last_advance + 1) * w.resolution_cycles + w.resolution_cycles := this
          _ = w.start + (astar + 1) * w.resolution_cycles := by rw [hastar]; ring
    · -- the deadline's step is still ahead: this tick leaves x in place
      push_neg at hcross
      have hreach' : ∃ t' ∈ ts, w.start + astar * w.resolution_cycles ≤ t' := by
        rcases hreach with ⟨t0, ht0mem, ht0⟩
        rcases List.mem_cons.mp ht0mem with rfl | h
        · exfalso
          have h1 : astar * w.resolution_cycles ≤ t0 - w.start := by omega
          have h2 : astar ≤ (t0 - w.start) / w.resolution_cycles :=
            (Nat.le_div_iff_mul_le hres).mpr h1
          omega
        · exact ⟨t0, h, ht0⟩
      -- after this tick the wheel is caught up at `t` and still holds x
      rcases Nat.eq_or_lt_of_le hadv_ge with hp0 | hp1
      · -- progress 0: the tick is a no-op
        have hzero : (t - w.start) / w.resolution_cycles - w.last_advance = 0 := by omega
        have htick : TimerWheel.tick t w = ((none, false), w) := by
          rw [hticke, hzero]
          rfl
        obtain ⟨i, hi, hdrain, hb1, hb2⟩ :=
          ih w x astar t hres hN hls hstt (by omega) hlow hhigh hx hchain'
            (fun t' ht' => hsmall t' (List.mem_cons_of_mem _ ht')) hreach'
        refine ⟨i + 1, by simpa using hi, ?_, ?_, ?_⟩
        · simpa only [runTicks, htick, List.getD_cons_succ] using hdrain
        · simpa only [List.getD_cons_succ] using hb1
        · simpa only [List.getD_cons_succ] using hb2
      · -- progress 1
        have hadv : (t - w.start) / w.resolution_cycles = w.last_advance + 1 := by omega
        have hone : (t - w.start) / w.resolution_cycles - w.last_advance = 1 := by omega
        have hlaU : w.last_advance + 1 < U64 := by
          have : (t - w.start) / w.resolution_cycles ≤ t :=
            le_trans (Nat.div_le_self _ _) (Nat.sub_le _ _)
          omega
        have hlslt : w.last_slot < w.no_slots := hls ▸ Nat.mod_lt _ hN
        have hls' : (w.last_slot + 1) % w.no_slots
            = (w.last_advance + 1 + (w.no_slots - 1)) % w.no_slots := by
          rw [hls, Nat.mod_add_mod]
          congr 1
          omega
        have hidxne : (astar + (w.no_slots - 1)) % w.no_slots
            ≠ (w.last_slot + 1) % w.no_slots := by
          rw [hls']
          apply mod_ne_of_lt_gap (by omega) (by omega) (by omega)
        rcases hcontent : w.slots.getD ((w.last_slot + 1) % w.no_slots) [] with _ | ⟨a, l⟩
        · -- the slot stepped over is empty
          have hfh : firstHit w.slots w.no_slots w.last_slot 1 = none := by
            simp only [firstHit]
            rw [hcontent]
            rfl
          have hloop := tickLoop_none (w := w) hN hlslt (by omega) hfh
          have htick : TimerWheel.tick t w = ((none, false),
              { w with last_slot := (w.last_slot + 1) % w.no_slots,
                       last_advance := w.last_advance + 1 }) := by
            rw [hticke, hone, hloop]
          set w2 : TimerWheel T :=
            { w with last_slot := (w.last_slot + 1) % w.no_slots,
                     last_advance := w.last_advance + 1 } with hw2
          obtain ⟨i, hi, hdrain, hb1, hb2⟩ :=
            ih w2 x astar t hres hN (by simpa [hw2] using hls') hstt
              (by simp [hw2]; omega) (by simp [hw2]; omega) (by simp [hw2]; omega)
              (by simpa [hw2] using hx) (by simpa [hw2] using hchain')
              (fun t' ht' => hsmall t' (List.mem_cons_of_mem _ ht'))
              (by simpa [hw2] using hreach')
          refine ⟨i + 1, by simpa using hi, ?_, ?_, ?_⟩
          · simpa only [runTicks, htick, List.getD_cons_succ] using hdrain
          · simpa only [hw2, List.getD_cons_succ] using hb1
          · simpa only [hw2, List.getD_cons_succ] using hb2
        · -- the slot stepped over is non-empty but is not x's slot
          have hfh : firstHit w.slots w.no_slots w.last_slot 1 = some 1 := by
            simp only [firstHit]
            rw [hcontent]
            simp
          have hloop := tickLoop_some (w := w) hN hlslt (by omega) hfh
          have htick : TimerWheel.tick t w = ((some (a :: l), decide (1 < 1)),
              { w with last_slot := (w.last_slot + 1) % w.no_slots,
                       last_advance := w.last_advance + 1,
                       slots := w.slots.set ((w.last_slot + 1) % w.no_slots) [] }) := by
            rw [hticke, hone, hloop, hcontent]
          set w2 : TimerWheel T :=
            { w with last_slot := (w.last_slot + 1) % w.no_slots,
                     last_advance := w.last_advance + 1,
                     slots := w.slots.set ((w.last_slot + 1) % w.no_slots) [] } with hw2
          have hx2 : x ∈ w2.slots.getD ((astar + (w.no_slots - 1)) % w.no_slots) [] := by
            have : w2.slots.getD ((astar + (w.no_slots - 1)) % w.no_slots) []
                = w.slots.getD ((astar + (w.no_slots - 1)) % w.no_slots) [] := by
              simp only [hw2]
              rw [List.getD_eq_getElem?_getD, List.getD_eq_getElem?_getD,
                List.getElem?_set_ne (Ne.symm hidxne)]
            rw [this]
            exact hx
          obtain ⟨i, hi, hdrain, hb1, hb2⟩ :=
            ih w2 x astar t hres hN (by simpa [hw2] using hls') hstt
              (by simp [hw2]; omega) (by simp [hw2]; omega) (by simp [hw2]; omega)
              hx2 (by simpa [hw2] using hchain')
              (fun t' ht' => hsmall t' (List.mem_cons_of_mem _ ht'))
              (by simpa [hw2] using hreach')
          refine ⟨i + 1, by simpa using hi, ?_, ?_, ?_⟩
          · simpa only [runTicks, htick, List.getD_cons_succ] using hdrain
          · simpa only [hw2, List.getD_cons_succ] using hb1
          · simpa only [hw2, List.getD_cons_succ] using hb2

/-- C1 (amended): for a well-formed wheel that is caught up at time `now`, an
item `x` and a deadline `d` with `now ≤ d` whose bucket lies strictly after
`now`'s bucket, after `schedule(d, x)` any monotone tick sequence spaced at
most one resolution apart that eventually reaches `d` drains `x` at some tick
`t ≤ d + no_slots·resolution` (within one full rotation after `d`), and when
`d ≤ now + max_timeout` moreover `d − resolution < t < d + resolution` — the
drain may precede `d` by up to one resolution, which is why the original bound
`d ≤ t` had to be weakened. -/
theorem C1_roundtrip_amended {T : Type} (w : TimerWheel T) (x : T) (now d : Nat)
    (ts : List Nat)
    (hres : 0 < w.resolution_cycles) (hN : 0 < w.no_slots)
    (hlen : w.slots.length = w.no_slots)
    (hls : w.last_slot = (w.last_advance + (w.no_slots - 1)) % w.no_slots)
    (hstart : w.start ≤ now)
    (hcaught : w.last_advance = (now - w.start) / w.resolution_cycles)
    (hnd : now ≤ d) (hd : d < U64)
    (hbucket : (now - w.start) / w.resolution_cycles < (d - w.start) / w.resolution_cycles)
    (hchain : List.Chain' (fun a b => a ≤ b ∧ b ≤ a + w.resolution_cycles) (now :: ts))
    (hsmall : ∀ t ∈ ts, t < U64)
    (hreach : ∃ t ∈ ts, d ≤ t) :
    ∃ i, i < ts.length ∧
      (∃ l, ((runTicks ts (TimerWheel.schedule d x w).2).1.getD i (none, false)).1
          = some l ∧ x ∈ l) ∧
      ts.getD i 0 ≤ d + w.no_slots * w.resolution_cycles ∧
      (d ≤ now + (w.no_slots - 1) * w.resolution_cycles →
        d - w.resolution_cycles < ts.getD i 0 ∧ ts.getD i 0 < d + w.resolution_cycles) := by
  set res := w.resolution_cycles with hresdef
  set N := w.no_slots with hNdef
  set A := (now - w.start) / res with hA
  set D := (d - w.start) / res with hD
  have hD1 : 1 ≤ D := by omega
  have hsd : w.start + res ≤ d := by
    have h1 : 1 * res ≤ d - w.start := (Nat.le_div_iff_mul_le hres).mp hD1
    omega
  obtain ⟨hslot, hw1⟩ := schedule_eq (w := w) (x := x) hres hsd hd
  set astar := A + 1 + (D - A - 1) % N with hastar
  have hmodlt : (D - A - 1) % N < N := Nat.mod_lt _ hN
  have hmodle : (D - A - 1) % N ≤ D - A - 1 := Nat.mod_le _ _
  have hastarD : astar ≤ D := by omega
  have hidxeq : (astar + (N - 1)) % N = (D - 1) % N := by
    have h1 : astar + (N - 1) ≡ (A + 1 + (D - A - 1)) + (N - 1) [MOD N] :=
      Nat.ModEq.add_right _ (Nat.ModEq.add_left _ (Nat.mod_modEq _ _))
    have h2 : (A + 1 + (D - A - 1)) + (N - 1) = (D - 1) + N := by omega
    rw [h2] at h1
    calc (astar + (N - 1)) % N = ((D - 1) + N) % N := h1
      _ = (D - 1) % N := Nat.add_mod_right _ _
  have hDmul : D * res ≤ d - w.start := Nat.div_mul_le_self _ _
  have hADmul : (A + 1) * res ≤ d - w.start :=
    (Nat.le_div_iff_mul_le hres).mp (show A + 1 ≤ D by omega)
  set w1 : TimerWheel T := (TimerWheel.schedule d x w).2 with hw1def
  have e1 : w1.resolution_cycles = res := by rw [hw1]
  have e2 : w1.no_slots = N := by rw [hw1]
  have e3 : w1.last_slot = w.last_slot := by rw [hw1]
  have e4 : w1.last_advance = w.last_advance := by rw [hw1]
  have e5 : w1.start = w.start := by rw [hw1]
  have e6 : x ∈ w1.slots.getD ((astar + (N - 1)) % N) [] := by
    rw [hw1]
    show x ∈ (w.slots.set ((D - 1) % N) (w.slots.getD ((D - 1) % N) [] ++ [x])).getD
      ((astar + (N - 1)) % N) []
    rw [hidxeq, List.getD_eq_getElem?_getD,
      List.getElem?_set_self (by rw [hlen]; exact Nat.mod_lt _ hN)]
    simp
  obtain ⟨i, hi, ⟨l, hl, hxl⟩, hb1, hb2⟩ :=
    drain_first_reach ts w1 x astar now
      (by rw [e1]; exact hres) (by rw [e2]; exact hN)
      (by rw [e3, e4, e2]; exact hls)
      (by rw [e5]; exact hstart)
      (by rw [e4, e5, e1]; exact hcaught)
      (by rw [e4]; omega) (by rw [e4, e2]; omega)
      (by rw [e2]; exact e6)
      (by simp only [e1]; exact hchain) hsmall
      (by
        simp only [e5, e1]
        rcases hreach with ⟨t0, ht0, htd⟩
        refine ⟨t0, ht0, ?_⟩
        have h1 : astar * res ≤ D * res := Nat.mul_le_mul_right _ hastarD
        omega)
  simp only [e5, e1] at hb1 hb2
  refine ⟨i, hi, ⟨l, hl, hxl⟩, ?_, ?_⟩
  · -- one-rotation bound
    show ts.getD i 0 ≤ d + N * res
    have h2 : (astar + 1) * res ≤ (A + N + 1) * res := Nat.mul_le_mul_right _ (by omega)
    have h3 : (A + N + 1) * res = (A + 1) * res + N * res := by ring
    omega
  · -- within-max_timeout bound
    intro hwin
    have hDle : D ≤ A + (N - 1) := by
      have hsub : d - w.start ≤ (now - w.start) + (N - 1) * res := by omega
      have h4 := Nat.div_le_div_right (c := res) hsub
      rw [Nat.add_mul_div_right _ _ hres] at h4
      omega
    have hmodid : (D - A - 1) % N = D - A - 1 := Nat.mod_eq_of_lt (by omega)
    have hastarD' : astar = D := by omega
    rw [hastarD'] at hb1 hb2
    have hdlt : d - w.start < (D + 1) * res := by
      have h5 := Nat.div_add_mod (d - w.start) res
      have h6 : (d - w.start) % res < res := Nat.mod_lt _ hres
      calc d - w.start = res * D + (d - w.start) % res := h5.symm
        _ < res * D + res := by omega
        _ = (D + 1) * res := by ring
    have h7 : (D + 1) * res = D * res + res := by ring
    constructor
    · omega
    · omega

/-- C1 (counterexample): a fresh wheel built at cycle 10 with resolution 10
and 8 slots (`max_timeout = 70`); the deadline `d = 25` lies in
`[now, now + max_timeout]` for `now = 10`, ticks arrive once per resolution at
20, 30, 40, …, yet the item is drained already at `t = 20 < d`, and the wheel
is empty afterwards, so no tick with `d ≤ t` ever drains it: the claimed bound
`d ≤ t` is false on the code. -/
theorem C1_counterexample :
    ((10:Nat) ≤ 25 ∧
      25 ≤ 10 + (TimerWheel.new Nat 8 10 8 10).get_max_timeout_cycles) ∧
    (TimerWheel.tick 20 (TimerWheel.schedule 25 42 (TimerWheel.new Nat 8 10 8 10)).2).1
      = (some [42], false) ∧
    (20:Nat) < 25 ∧
    (TimerWheel.tick 20 (TimerWheel.schedule 25 42 (TimerWheel.new Nat 8 10 8 10)).2).2.slots
      = List.replicate 8 [] := by decide

/-- C1 witness: a concrete run of `C1_roundtrip_amended` (wheel with
resolution 10 and 4 slots, caught up at `now = 5`; deadline `d = 15`; ticks at
12 and 22). -/
theorem C1_roundtrip_amended_witness :
    ((0:Nat) < 10 ∧ (0:Nat) < 4 ∧
     ([[], [], [], []] : List (List Nat)).length = 4 ∧
     (3:Nat) = (0 + (4 - 1)) % 4 ∧
     (0:Nat) ≤ 5 ∧ (0:Nat) = (5 - 0) / 10 ∧
     (5:Nat) ≤ 15 ∧ (15:Nat) < U64 ∧
     (5 - 0) / 10 < (15 - 0) / 10 ∧
     List.Chain' (fun a b => a ≤ b ∧ b ≤ a + 10) (5 :: [12, 22]) ∧
     (∀ t ∈ [12, 22], t < U64) ∧ (∃ t ∈ ([12, 22] : List Nat), 15 ≤ t)) ∧
    (∃ i, i < ([12, 22] : List Nat).length ∧
      (∃ l, ((runTicks [12, 22]
          (TimerWheel.schedule 15 42 (TimerWheel.mk 10 4 3 0 0 [[], [], [], []])).2).1.getD
            i (none, false)).1 = some l ∧ 42 ∈ l) ∧
      ([12, 22] : List Nat).getD i 0 ≤ 15 + 4 * 10 ∧
      ((15:Nat) ≤ 5 + (4 - 1) * 10 →
        15 - 10 < ([12, 22] : List Nat).getD i 0 ∧
        ([12, 22] : List Nat).getD i 0 < 15 + 10)) :=
  ⟨by refine ⟨by decide, by decide, by decide, by decide, by decide, by decide,
      by decide, by decide, by decide, by simp [List.chain'_cons], by decide, by decide⟩,
   C1_roundtrip_amended (TimerWheel.mk 10 4 3 0 0 [[], [], [], []]) 42 5 15 [12, 22]
     (by decide) (by decide) (by decide) (by decide) (by decide) (by decide)
     (by decide) (by decide) (by decide) (by simp [List.chain'_cons]) (by decide) (by decide)⟩

/-- C2: with monotone time (`start + resolution ≤ when`, so none of the `u64`
subtractions wrap), `schedule(when, item)` computes the slot index
`((when − start)/resolution − 1) mod N`, appends the item to that slot's bag
leaving every other slot and every other field unchanged, and returns that
slot index; and `new` sets `start` to the creation-time cycle count minus one
resolution. -/
theorem C2_schedule {T : Type} (w : TimerWheel T) (x : T) (whenv : Nat)
    (N res cap c : Nat)
    (hres : 0 < w.resolution_cycles) (hlen : w.slots.length = w.no_slots)
    (hwhen : w.start + w.resolution_cycles ≤ whenv) (hU : whenv < U64)
    (hresc : res ≤ c) (hc : c < U64) :
    (TimerWheel.schedule whenv x w).1
        = ((whenv - w.start) / w.resolution_cycles - 1) % w.no_slots ∧
    (∀ i, i < w.no_slots →
      (TimerWheel.schedule whenv x w).2.slots.getD i []
        = if i = ((whenv - w.start) / w.resolution_cycles - 1) % w.no_slots
          then w.slots.getD i [] ++ [x] else w.slots.getD i []) ∧
    (TimerWheel.schedule whenv x w).2.last_slot = w.last_slot ∧
    (TimerWheel.schedule whenv x w).2.last_advance = w.last_advance ∧
    (TimerWheel.schedule whenv x w).2.start = w.start ∧
    (TimerWheel.schedule whenv x w).2.resolution_cycles = w.resolution_cycles ∧
    (TimerWheel.schedule whenv x w).2.no_slots = w.no_slots ∧
    (TimerWheel.new T N res cap c).start = c - res := by
  obtain ⟨hslot, hw1⟩ := schedule_eq (w := w) (x := x) hres hwhen hU
  refine ⟨hslot, ?_, by rw [hw1], by rw [hw1], by rw [hw1], by rw [hw1], by rw [hw1], ?_⟩
  · intro i hi
    rw [hw1]
    show (w.slots.set (((whenv - w.start) / w.resolution_cycles - 1) % w.no_slots)
        (w.slots.getD (((whenv - w.start) / w.resolution_cycles - 1) % w.no_slots) [] ++ [x])).getD i []
      = _
    by_cases hieq : i = ((whenv - w.start) / w.resolution_cycles - 1) % w.no_slots
    · rw [if_pos hieq, hieq]
      have hlt : ((whenv - w.start) / w.resolution_cycles - 1) % w.no_slots < w.slots.length := by
        rw [hlen]
        exact Nat.mod_lt _ (by omega)
      rw [List.getD_eq_getElem?_getD, List.getElem?_set_self hlt]
      simp
    · rw [if_neg hieq]
      rw [List.getD_eq_getElem?_getD, List.getElem?_set_ne (by omega),
        ← List.getD_eq_getElem?_getD]
  · show wsub c res = c - res
    exact wsub_eq_sub hresc hc

/-- C2 witness: a concrete run of `C2_schedule` (wheel with resolution 10 and
4 slots; `when = 25` lands in slot 1; `new` at cycle 30 with resolution 10
yields `start = 20`). -/
theorem C2_schedule_witness :
    ((0:Nat) < 10 ∧ ([[], [], [], []] : List (List Nat)).length = 4 ∧
     (0:Nat) + 10 ≤ 25 ∧ (25:Nat) < U64 ∧ (10:Nat) ≤ 30 ∧ (30:Nat) < U64) ∧
    ((TimerWheel.schedule 25 7 (TimerWheel.mk 10 4 3 0 0 [[], [], [], []])).1
        = ((25 - 0) / 10 - 1) % 4 ∧
     (∀ i, i < 4 →
       (TimerWheel.schedule 25 7 (TimerWheel.mk 10 4 3 0 0 [[], [], [], []])).2.slots.getD i []
         = if i = ((25 - 0) / 10 - 1) % 4
           then ([[], [], [], []] : List (List Nat)).getD i [] ++ [7]
           else ([[], [], [], []] : List (List Nat)).getD i []) ∧
     (TimerWheel.schedule 25 7 (TimerWheel.mk 10 4 3 0 0 [[], [], [], []])).2.last_slot = 3 ∧
     (TimerWheel.schedule 25 7 (TimerWheel.mk 10 4 3 0 0 [[], [], [], []])).2.last_advance = 0 ∧
     (TimerWheel.schedule 25 7 (TimerWheel.mk 10 4 3 0 0 [[], [], [], []])).2.start = 0 ∧
     (TimerWheel.schedule 25 7 (TimerWheel.mk 10 4 3 0 0 [[], [], [], []])).2.resolution_cycles = 10 ∧
     (TimerWheel.schedule 25 7 (TimerWheel.mk 10 4 3 0 0 [[], [], [], []])).2.no_slots = 4 ∧
     (TimerWheel.new Nat 4 10 4 30).start = 30 - 10) :=
  ⟨by refine ⟨by decide, by decide, by decide, by decide, by decide, by decide⟩,
   C2_schedule (TimerWheel.mk 10 4 3 0 0 [[], [], [], []]) 7 25 4 10 4 30
     (by decide) (by decide) (by decide) (by decide) (by decide) (by decide)⟩

/-- C3: under monotone time and no overrun (`progress ≤ N`), each `tick(now)`
computes `advance = (now − start)/resolution` and
`progress = advance − last_advance`, advances `last_slot` one step at a time
until a non-empty slot is found or `progress` slots have been inspected; if a
non-empty slot is found at the `j`-th step (all earlier inspected slots being
empty) it returns that slot's drained items with a flag that is true exactly
when more slots remain for this tick (`j < progress`), and otherwise it
returns no items and a false flag, having advanced `progress` steps. -/
theorem C3_tick {T : Type} (w : TimerWheel T) (now : Nat)
    (_hres : 0 < w.resolution_cycles) (hN : 0 < w.no_slots)
    (hls : w.last_slot < w.no_slots)
    (hstart : w.start ≤ now) (hU : now < U64)
    (hmono : w.last_advance ≤ (now - w.start) / w.resolution_cycles)
    (hnoover : (now - w.start) / w.resolution_cycles ≤ w.last_advance + w.no_slots) :
    (∃ j, 1 ≤ j ∧ j ≤ (now - w.start) / w.resolution_cycles - w.last_advance ∧
      w.slots.getD ((w.last_slot + j) % w.no_slots) [] ≠ [] ∧
      (∀ i, 1 ≤ i → i < j → w.slots.getD ((w.last_slot + i) % w.no_slots) [] = []) ∧
      TimerWheel.tick now w =
        ((some (w.slots.getD ((w.last_slot + j) % w.no_slots) []),
          decide (j < (now - w.start) / w.resolution_cycles - w.last_advance)),
         { w with last_slot := (w.last_slot + j) % w.no_slots,
                  last_advance := w.last_advance + j,
                  slots := w.slots.set ((w.last_slot + j) % w.no_slots) [] })) ∨
    ((∀ i, 1 ≤ i → i ≤ (now - w.start) / w.resolution_cycles - w.last_advance →
        w.slots.getD ((w.last_slot + i) % w.no_slots) [] = []) ∧
      TimerWheel.tick now w = ((none, false),
        { w with
          last_slot := (w.last_slot + ((now - w.start) / w.resolution_cycles - w.last_advance)) % w.no_slots,
          last_advance := w.last_advance + ((now - w.start) / w.resolution_cycles - w.last_advance) })) := by
  have hadvU : (now - w.start) / w.resolution_cycles < U64 :=
    lt_of_le_of_lt (le_trans (Nat.div_le_self _ _) (Nat.sub_le _ _)) hU
  have htick := tick_eq_tickLoop (w := w) hstart hU hmono hnoover
  rcases hfh : firstHit w.slots w.no_slots w.last_slot
      ((now - w.start) / w.resolution_cycles - w.last_advance) with _ | j
  · right
    have hall := firstHit_none_iff.mp hfh
    have hloop := tickLoop_none hN hls (by omega) hfh
    exact ⟨hall, by rw [htick, hloop]⟩
  · left
    obtain ⟨hj1, hj2, hne, hmin⟩ := firstHit_some hfh
    have hloop := tickLoop_some hN hls (by omega) hfh
    exact ⟨j, hj1, hj2, hne, hmin, by rw [htick, hloop]⟩

/-- C3 witness: a concrete run of `C3_tick` (wheel with resolution 10 and 4
slots holding one item in slot 1; `tick` at cycle 30 skips the empty slot 0,
drains slot 1 at step `j = 2` and reports more work since `progress = 3`). -/
theorem C3_tick_witness :
    ((0:Nat) < 10 ∧ (0:Nat) < 4 ∧ (3:Nat) < 4 ∧ (0:Nat) ≤ 30 ∧ (30:Nat) < U64 ∧
     (0:Nat) ≤ (30 - 0) / 10 ∧ (30 - 0) / 10 ≤ 0 + 4) ∧
    ((∃ j, 1 ≤ j ∧ j ≤ (30 - 0) / 10 - 0 ∧
      ([[], [42], [], []] : List (List Nat)).getD ((3 + j) % 4) [] ≠ [] ∧
      (∀ i, 1 ≤ i → i < j →
        ([[], [42], [], []] : List (List Nat)).getD ((3 + i) % 4) [] = []) ∧
      TimerWheel.tick 30 (TimerWheel.mk 10 4 3 0 0 [[], [42], [], []]) =
        ((some (([[], [42], [], []] : List (List Nat)).getD ((3 + j) % 4) []),
          decide (j < (30 - 0) / 10 - 0)),
         TimerWheel.mk 10 4 ((3 + j) % 4) (0 + j) 0
           (([[], [42], [], []] : List (List Nat)).set ((3 + j) % 4) []))) ∨
    ((∀ i, 1 ≤ i → i ≤ (30 - 0) / 10 - 0 →
        ([[], [42], [], []] : List (List Nat)).getD ((3 + i) % 4) [] = []) ∧
      TimerWheel.tick 30 (TimerWheel.mk 10 4 3 0 0 [[], [42], [], []]) = ((none, false),
        TimerWheel.mk 10 4 ((3 + ((30 - 0) / 10 - 0)) % 4) (0 + ((30 - 0) / 10 - 0)) 0
          [[], [42], [], []]))) :=
  ⟨by refine ⟨by decide, by decide, by decide, by decide, by decide, by decide, by decide⟩,
   C3_tick (TimerWheel.mk 10 4 3 0 0 [[], [42], [], []]) 30
     (by decide) (by decide) (by decide) (by decide) (by decide) (by decide) (by decide)⟩

/-- C4: on wheel overrun (`progress = advance − last_advance > N`), `tick`
snaps `last_advance` forward to `advance − N` and `last_slot` to
`(advance − N) mod N` before draining, and then drains at most the `N` newest
of the pending slots (the drain loop runs from the snapped position), so the
oldest `progress − N` slot steps are dropped. -/
theorem C4_tick_overrun {T : Type} (w : TimerWheel T) (now : Nat)
    (hstart : w.start ≤ now) (hU : now < U64)
    (hover : w.last_advance + w.no_slots < (now - w.start) / w.resolution_cycles) :
    TimerWheel.tick now w =
      TimerWheel.tickLoop w.no_slots
        { w with
          last_slot := ((now - w.start) / w.resolution_cycles - w.no_slots) % w.no_slots,
          last_advance := (now - w.start) / w.resolution_cycles - w.no_slots } := by
  have hadvU : (now - w.start) / w.resolution_cycles < U64 :=
    lt_of_le_of_lt (le_trans (Nat.div_le_self _ _) (Nat.sub_le _ _)) hU
  have h1 : wsub now w.start = now - w.start := wsub_eq_sub hstart hU
  have h2 : wsub ((now - w.start) / w.resolution_cycles) w.last_advance
      = (now - w.start) / w.resolution_cycles - w.last_advance :=
    wsub_eq_sub (by omega) hadvU
  have hmin : min ((now - w.start) / w.resolution_cycles - w.last_advance) w.no_slots
      = w.no_slots := by omega
  have hcond : ((now - w.start) / w.resolution_cycles - w.last_advance > w.no_slots) = True := by
    simp only [gt_iff_lt, eq_iff_iff, iff_true]
    omega
  have h3 : wsub ((now - w.start) / w.resolution_cycles) w.no_slots
      = (now - w.start) / w.resolution_cycles - w.no_slots :=
    wsub_eq_sub (by omega) hadvU
  simp only [TimerWheel.tick, h1, h2, hmin, hcond, if_true, h3]

/-- C4 witness: a concrete overrun (`advance = 10`, `last_advance = 0`,
`N = 4`): the snap lands at `last_advance = 6`, `last_slot = 6 % 4 = 2`. -/
theorem C4_tick_overrun_witness :
    ((0:Nat) ≤ 100 ∧ (100:Nat) < U64 ∧ 0 + 4 < (100 - 0) / 10) ∧
    TimerWheel.tick 100 (TimerWheel.mk 10 4 3 0 0 ([[], [], [], []] : List (List Nat))) =
      TimerWheel.tickLoop 4
        (TimerWheel.mk 10 4 (((100 - 0) / 10 - 4) % 4) ((100 - 0) / 10 - 4) 0
          ([[], [], [], []] : List (List Nat))) :=
  ⟨by refine ⟨by decide, by decide, by decide⟩,
   C4_tick_overrun (TimerWheel.mk 10 4 3 0 0 ([[], [], [], []] : List (List Nat))) 100
     (by decide) (by decide) (by decide)⟩

/-- C9: under a positive resolution and a positive slot count, the debug-mode
checked variants are total exactly on the claimed domains: `schedule(when, _)`
succeeds iff `start + resolution ≤ when` (for smaller `when` either
`when − start` or `(when − start)/resolution − 1` underflows), and `tick(now)`
succeeds iff `start ≤ now` and `last_advance ≤ (now − start)/resolution`
(otherwise `now − start` or `advance − last_advance` underflows). -/
theorem C9_preconditions {T : Type} (w : TimerWheel T) (whenv now : Nat) (x : T)
    (hres : 0 < w.resolution_cycles) (hN : 0 < w.no_slots) :
    ((TimerWheel.schedule_checked whenv x w).isSome ↔
      w.start + w.resolution_cycles ≤ whenv) ∧
    ((TimerWheel.tick_checked now w).isSome ↔
      (w.start ≤ now ∧ w.last_advance ≤ (now - w.start) / w.resolution_cycles)) := by
  constructor
  · simp only [TimerWheel.schedule_checked, checkedSub, checkedDiv, checkedRem,
      Option.bind_eq_bind]
    by_cases h1 : w.start ≤ whenv
    · rw [if_pos h1]
      simp only [Option.some_bind]
      rw [if_neg (by omega : ¬ w.resolution_cycles = 0)]
      simp only [Option.some_bind]
      by_cases h2 : 1 ≤ (whenv - w.start) / w.resolution_cycles
      · rw [if_pos h2]
        simp only [Option.some_bind]
        rw [if_neg (by omega : ¬ w.no_slots = 0)]
        simp only [Option.some_bind, Option.isSome_some, true_iff]
        have := (Nat.le_div_iff_mul_le hres).mp h2
        omega
      · rw [if_neg h2]
        simp only [Option.none_bind, Option.isSome_none, Bool.false_eq_true, false_iff]
        intro hcon
        have : 1 * w.resolution_cycles ≤ whenv - w.start := by omega
        exact h2 ((Nat.le_div_iff_mul_le hres).mpr this)
    · rw [if_neg h1]
      simp only [Option.none_bind, Option.isSome_none, Bool.false_eq_true, false_iff]
      omega
  · simp only [TimerWheel.tick_checked, checkedSub, checkedDiv, checkedRem,
      Option.bind_eq_bind]
    by_cases h1 : w.start ≤ now
    · rw [if_pos h1]
      simp only [Option.some_bind]
      rw [if_neg (by omega : ¬ w.resolution_cycles = 0)]
      simp only [Option.some_bind]
      by_cases h2 : w.last_advance ≤ (now - w.start) / w.resolution_cycles
      · rw [if_pos h2]
        simp only [Option.some_bind]
        by_cases h3 : (now - w.start) / w.resolution_cycles - w.last_advance > w.no_slots
        · rw [if_pos h3]
          have hm : min ((now - w.start) / w.resolution_cycles - w.last_advance) w.no_slots
              = w.no_slots := by omega
          rw [hm, if_pos (by omega : w.no_slots ≤ (now - w.start) / w.resolution_cycles)]
          simp only [Option.some_bind]
          rw [if_neg (by omega : ¬ w.no_slots = 0)]
          simp only [Option.some_bind, Option.isSome_some, true_iff]
          exact ⟨h1, h2⟩
        · rw [if_neg h3]
          simp only [Option.some_bind, Option.isSome_some, true_iff]
          exact ⟨h1, h2⟩
      · rw [if_neg h2]
        simp only [Option.none_bind, Option.isSome_none, Bool.false_eq_true, false_iff]
        omega
    · rw [if_neg h1]
      simp only [Option.none_bind, Option.isSome_none, Bool.false_eq_true, false_iff]
      omega

/-- C9 witness: at resolution 10 with 4 slots and `start = 20`,
`schedule_checked` succeeds exactly for deadlines `≥ 30` and `tick_checked` at
`now = 25` succeeds (the wheel is fresh, `last_advance = 0`). -/
theorem C9_preconditions_witness :
    ((0:Nat) < 10 ∧ (0:Nat) < 4) ∧
    (((TimerWheel.schedule_checked 25 7
        (TimerWheel.mk 10 4 3 0 20 ([[], [], [], []] : List (List Nat)))).isSome ↔
        (20:Nat) + 10 ≤ 25) ∧
     ((TimerWheel.tick_checked 25
        (TimerWheel.mk 10 4 3 0 20 ([[], [], [], []] : List (List Nat)))).isSome ↔
       ((20:Nat) ≤ 25 ∧ (0:Nat) ≤ (25 - 20) / 10))) :=
  ⟨⟨by decide, by decide⟩,
   C9_preconditions (TimerWheel.mk 10 4 3 0 20 ([[], [], [], []] : List (List Nat))) 25 25 7
     (by decide) (by decide)⟩

set_option maxRecDepth 100000 in
/-- C5: timer-wheel overflow robustness, concretely as in the source test
`event_timing`: a wheel with `N = 128` slots and a resolution of 16 ms worth
of cycles, created at cycle `16·MILLIS_TO_CYCLES`; an item scheduled 5000 ms
in the future — far beyond `max_timeout = 127·16 ms` — with ticks driven every
2 ms is drained exactly once within the next 1024 ticks. -/
theorem C5_overflow_fires_once :
    ((runTicks
        ((List.range' 1 1024).map (fun i => 16 * MILLIS_TO_CYCLES + 2 * MILLIS_TO_CYCLES * i))
        (TimerWheel.schedule (16 * MILLIS_TO_CYCLES + 5000 * MILLIS_TO_CYCLES) 5000
          (TimerWheel.new Nat 128 (16 * MILLIS_TO_CYCLES) 128
            (16 * MILLIS_TO_CYCLES))).2).1.filterMap
        (fun r => r.1)).flatten.count 5000 = 1 := by decide

/-- C6 (counterexample): the source `MessageFrom` has a `CRecord` variant the
spec's list omits, lacks the spec's `Counter` variant, and the source
`MessageTo` variant list differs from the spec's reply-message list — so the
message types do not consist exactly of the spec's variants. -/
theorem C6_counterexample :
    MessageFrom.variantName (MessageFrom.CRecord ⟨0, 0, 0⟩ ⟨⟨0, 0⟩⟩)
        ∉ specMessageFromVariants ∧
    "Counter" ∉ messageFromVariants ∧
    messageFromVariants ≠ specMessageFromVariants ∧
    messageToVariants ≠ specMessageToVariants := by decide

/-- C6 (amended): the data-plane-to-control-thread type `MessageFrom` contains
exactly the variants `Channel(pipeline, reply_sender)`,
`CRecord(pipeline, record)`, `ClientSyn(pipeline, record)`,
`Established(pipeline, record)`, `GenTimeStamp(pipeline, count, tsc0, tsc1)`,
`StartEngine(reply_sender)`, `Task(pipeline, task_uuid, task_type)`,
`PrintPerformance(core_indices)` and `Exit`; and the reply type `MessageTo`
contains exactly `Hello`, `ConRecords(records)` and `Exit`. -/
theorem C6_message_variants_amended :
    (∀ m : MessageFrom, m.variantName ∈ messageFromVariants) ∧
    ([MessageFrom.Channel ⟨0, 0, 0⟩ ⟨0⟩, MessageFrom.CRecord ⟨0, 0, 0⟩ ⟨⟨0, 0⟩⟩,
      MessageFrom.ClientSyn ⟨0, 0, 0⟩ ⟨⟨0, 0⟩⟩, MessageFrom.Established ⟨0, 0, 0⟩ ⟨⟨0, 0⟩⟩,
      MessageFrom.GenTimeStamp ⟨0, 0, 0⟩ 0 0 0, MessageFrom.StartEngine ⟨0⟩,
      MessageFrom.Task ⟨0, 0, 0⟩ ⟨0⟩ TaskType.TcpGenerator,
      MessageFrom.PrintPerformance [], MessageFrom.Exit].map MessageFrom.variantName
        = messageFromVariants) ∧
    (∀ m : MessageTo, m.variantName ∈ messageToVariants) ∧
    ([MessageTo.Hello, MessageTo.ConRecords [], MessageTo.Exit].map MessageTo.variantName
        = messageToVariants) ∧
    messageFromVariants = ["Channel", "CRecord", "ClientSyn", "Established",
      "GenTimeStamp", "StartEngine", "Task", "PrintPerformance", "Exit"] ∧
    messageToVariants = ["Hello", "ConRecords", "Exit"] := by
  refine ⟨?_, by decide, ?_, by decide, by decide, by decide⟩
  · intro m
    cases m <;> simp [MessageFrom.variantName, messageFromVariants]
  · intro m
    cases m <;> simp [MessageTo.variantName, messageToVariants]

/-- C7: `read_config` returns an error — never a `Configuration` — when the
file read fails, when the TOML does not parse, when `engine.ipnet` does not
parse as an IPv4 network, or when `engine.mac` does not parse as a MAC
address; it returns `Ok` exactly when all four steps succeed, and then the
value is the parsed configuration (`config.proxyengine`). -/
theorem C7_read_config (env : ReadConfigEnv) (c : Configuration) :
    read_config env = Except.ok c ↔
      ∃ s cfg, env.fileContent = some s ∧ env.parseToml s = some cfg ∧
        env.ipnetParses cfg.proxyengine.engine.ipnet = true ∧
        env.macParses cfg.proxyengine.engine.mac = true ∧
        c = cfg.proxyengine := by
  rcases hf : env.fileContent with _ | s
  · simp [read_config, hf]
  · rcases hp : env.parseToml s with _ | cfg
    · simp [read_config, hf, hp]
    · by_cases hip : env.ipnetParses cfg.proxyengine.engine.ipnet = true
      · by_cases hmac : env.macParses cfg.proxyengine.engine.mac = true
        · simp only [read_config, hf, hp, if_pos hip, if_pos hmac]
          constructor
          · intro h
            cases h
            exact ⟨s, cfg, rfl, hp, hip, hmac, rfl⟩
          · rintro ⟨s', cfg', hs', hcfg', _, _, rfl⟩
            cases hs'
            rw [hp] at hcfg'
            cases hcfg'
            rfl
        · simp only [read_config, hf, hp, if_pos hip, if_neg hmac]
          constructor
          · intro h; cases h
          · rintro ⟨s', cfg', hs', hcfg', _, hmac', _⟩
            cases hs'
            rw [hp] at hcfg'
            cases hcfg'
            exact absurd hmac' hmac
      · simp only [read_config, hf, hp, if_neg hip]
        constructor
        · intro h; cases h
        · rintro ⟨s', cfg', hs', hcfg', hip', _, _⟩
          cases hs'
          rw [hp] at hcfg'
          cases hcfg'
          exact absurd hip' hip

/-- C8: when the configuration omits the `timeouts` table or omits
`timeouts.established`, `default_or_some` yields the 200 ms default for the
established idle timeout; when a value is supplied it is returned exactly. -/
theorem C8_timeouts_default_or_some :
    (Timeouts.default_or_some none).established = some 200 ∧
    (Timeouts.default_or_some (some ⟨none⟩)).established = some 200 ∧
    ∀ v, (Timeouts.default_or_some (some ⟨some v⟩)).established = some v := by
  refine ⟨rfl, rfl, fun v => rfl⟩

theorem conRecordCmp_not_gt_iff (a b : PipelineId × ConRecord) :
    conRecordCmp a b ≠ Ordering.gt ↔
      (a.2.client_sock.ip < b.2.client_sock.ip ∨
        (a.2.client_sock.ip = b.2.client_sock.ip ∧
          a.2.client_sock.port ≤ b.2.client_sock.port)) := by
  unfold conRecordCmp
  rcases hc : compare a.2.client_sock.ip b.2.client_sock.ip with _ | _ | _
  · have h1 : a.2.client_sock.ip < b.2.client_sock.ip := Nat.compare_eq_lt.mp hc
    simp only [reduceCtorEq, if_false, ne_eq]
    constructor
    · intro _; exact Or.inl h1
    · intro _; intro hcon; cases hcon
  · have h1 : a.2.client_sock.ip = b.2.client_sock.ip := Nat.compare_eq_eq.mp hc
    simp only [if_pos rfl, ne_eq]
    constructor
    · intro h
      refine Or.inr ⟨h1, ?_⟩
      by_contra hcon
      exact h (Nat.compare_eq_gt.mpr (by omega))
    · intro h hcon
      have := Nat.compare_eq_gt.mp hcon
      omega
  · have h1 : b.2.client_sock.ip < a.2.client_sock.ip := Nat.compare_eq_gt.mp hc
    simp only [reduceCtorEq, if_false, ne_eq, not_true_eq_false, false_iff]
    omega

/-- C10: upon receiving the `Exit` control message, the receive-thread loop
sends the accumulated connection records to the main reply channel — when a
`StartEngine` reply channel was registered — sorted by client IP in ascending
order with ties broken by ascending client port (the sort is a permutation of
the accumulated records), and then stops the scheduler context and terminates
the loop. -/
theorem C10_exit_handler (records : List (PipelineId × ConRecord))
    (reply : Option (Sender MessageTo)) :
    (handleExit records reply).contextStopped = true ∧
    (handleExit records reply).loopTerminated = true ∧
    (handleExit records reply).sentToMain
      = (if reply.isSome then some (MessageTo.ConRecords (sortConRecords records))
         else none) ∧
    (sortConRecords records).Perm records ∧
    List.Sorted (fun a b => a.2.client_sock.ip < b.2.client_sock.ip ∨
      (a.2.client_sock.ip = b.2.client_sock.ip ∧
        a.2.client_sock.port ≤ b.2.client_sock.port))
      (sortConRecords records) := by
  refine ⟨rfl, rfl, rfl, List.perm_insertionSort _ _, ?_⟩
  haveI h1 : IsTotal (PipelineId × ConRecord)
      (fun a b => conRecordCmp a b ≠ Ordering.gt) := ⟨by
    intro a b
    rw [conRecordCmp_not_gt_iff, conRecordCmp_not_gt_iff]
    omega⟩
  haveI h2 : IsTrans (PipelineId × ConRecord)
      (fun a b => conRecordCmp a b ≠ Ordering.gt) := ⟨by
    intro a b c hab hbc
    rw [conRecordCmp_not_gt_iff] at hab hbc ⊢
    omega⟩
  have hs := List.sorted_insertionSort (fun a b => conRecordCmp a b ≠ Ordering.gt) records
  exact List.Pairwise.imp (fun {a b} h => (conRecordCmp_not_gt_iff a b).mp h) hs

end ProxyEngine
